import Mathlib

/-!
Shallow embedding of the `grid_util` Rust crate (2D grid primitives:
points, compass directions, rectangles, and grid containers), together
with theorems settling the specification claims about it.

Conventions of the embedding:
* Rust `i32` coordinates are modelled as `Int`, `usize` sizes as `Nat`
  (the spec's data model is mathematical integers; no claim here turns on
  machine-width wraparound).
* `Vec<T>` is modelled as `List T`; fallible indexing (`v[i]`, which
  panics out of range in Rust) is modelled with `List.get?`, i.e. by
  `Option`.
* `rem_euclid` on `i32` is `Int.emod` (both return a result in `[0, |m|)`
  for a positive modulus).
-/

namespace GridUtil

/-- Two-dimensional integer point (src/point.rs, `Point`). -/
structure Point where
  x : Int
  y : Int
deriving DecidableEq, Repr

/-- Source `Point::new` (src/point.rs). -/
def Point.new (x y : Int) : Point := ⟨x, y⟩

/-- The 8 compass directions plus the `NONE` sentinel (src/direction.rs). -/
inductive Direction where
  | NORTH
  | NORTHEAST
  | EAST
  | SOUTHEAST
  | SOUTH
  | SOUTHWEST
  | WEST
  | NORTHWEST
  | NONE
deriving DecidableEq, Repr

/-- The `#[repr(i32)]` discriminant of a `Direction` (`Direction::num`,
via `IntoPrimitive`). -/
def Direction.num : Direction → Int
  | .NORTH => 0
  | .NORTHEAST => 1
  | .EAST => 2
  | .SOUTHEAST => 3
  | .SOUTH => 4
  | .SOUTHWEST => 5
  | .WEST => 6
  | .NORTHWEST => 7
  | .NONE => 8

/-- Source `Direction::try_from` on the `i32` discriminant (`TryFromPrimitive`):
`some` exactly on the declared discriminants 0..8. -/
def Direction.ofNum (n : Int) : Option Direction :=
  if n = 0 then some .NORTH
  else if n = 1 then some .NORTHEAST
  else if n = 2 then some .EAST
  else if n = 3 then some .SOUTHEAST
  else if n = 4 then some .SOUTH
  else if n = 5 then some .SOUTHWEST
  else if n = 6 then some .WEST
  else if n = 7 then some .NORTHWEST
  else if n = 8 then some .NONE
  else none

/-- Source `Direction::rotate_cw` (src/direction.rs).  The source's `.unwrap()`
is modelled by defaulting the `none` branch to `NONE`; the branch is
unreachable because `(… ).rem_euclid(8)` lands in `[0,7]`, where `ofNum`
is always `some` (see `Direction.ofNum_isSome_of_range`). -/
def Direction.rotate_cw (d : Direction) (eights : Int) : Direction :=
  match d with
  | .NONE => .NONE
  | _ => (Direction.ofNum ((d.num + eights) % 8)).getD .NONE

/-- Source `Direction::rotate_ccw` (src/direction.rs), same modelling as
`rotate_cw`. -/
def Direction.rotate_ccw (d : Direction) (eights : Int) : Direction :=
  match d with
  | .NONE => .NONE
  | _ => (Direction.ofNum ((d.num - eights)% 8)).getD .NONE

/-- Source `impl From<Direction> for Point` (src/point.rs): the fixed
direction-to-unit-delta conversion table. -/
def Point.fromDirection : Direction → Point
  | .NORTH => Point.new 0 1
  | .NORTHEAST => Point.new 1 1
  | .EAST => Point.new 1 0
  | .SOUTHEAST => Point.new 1 (-1)
  | .SOUTH => Point.new 0 (-1)
  | .SOUTHWEST => Point.new (-1) (-1)
  | .WEST => Point.new (-1) 0
  | .NORTHWEST => Point.new (-1) 1
  | .NONE => Point.new 0 0

/-- Source `Point::dir_obj` (src/point.rs): compass direction from `self`
toward `other`, by comparing `x` then `y`. -/
def Point.dir_obj (self other : Point) : Direction :=
  match compare self.x other.x with
  | .gt =>
    match compare self.y other.y with
    | .lt => .NORTHWEST
    | .eq => .WEST
    | .gt => .SOUTHWEST
  | .eq =>
    match compare self.y other.y with
    | .lt => .NORTH
    | .eq => .NONE
    | .gt => .SOUTH
  | .lt =>
    match compare self.y other.y with
    | .lt => .NORTHEAST
    | .eq => .EAST
    | .gt => .SOUTHEAST

/-- Source `Point::abs_dir` (src/point.rs): direction of `self` as seen from
the origin. -/
def Point.abs_dir (self : Point) : Direction :=
  (Point.new 0 0).dir_obj self

theorem Direction.ofNum_isSome_of_range (n : Int) (h0 : 0 ≤ n) (h8 : n < 8) :
    (Direction.ofNum n).isSome := by
  have : n = 0 ∨ n = 1 ∨ n = 2 ∨ n = 3 ∨ n = 4 ∨ n = 5 ∨ n = 6 ∨ n = 7 := by omega
  rcases this with h | h | h | h | h | h | h | h <;> subst h <;> rfl

theorem Direction.num_ofNum_getD (n : Int) (h0 : 0 ≤ n) (h8 : n < 8) :
    ((Direction.ofNum n).getD .NONE).num = n ∧ (Direction.ofNum n).getD .NONE ≠ .NONE := by
  have : n = 0 ∨ n = 1 ∨ n = 2 ∨ n = 3 ∨ n = 4 ∨ n = 5 ∨ n = 6 ∨ n = 7 := by omega
  rcases this with h | h | h | h | h | h | h | h <;> subst h <;> exact ⟨rfl, by decide⟩

theorem Direction.ofNum_num (d : Direction) : Direction.ofNum d.num = some d := by
  cases d <;> rfl

/-- Source `rotate_cw` on a non-`NONE` direction unfolds to the table lookup. -/
theorem Direction.rotate_cw_ne_none (d : Direction) (h : d ≠ .NONE) (n : Int) :
    d.rotate_cw n = (Direction.ofNum ((d.num + n)% 8)).getD .NONE := by
  cases d <;> first | rfl | exact absurd rfl h

/-- Source `rotate_ccw` on a non-`NONE` direction unfolds to the table lookup. -/
theorem Direction.rotate_ccw_ne_none (d : Direction) (h : d ≠ .NONE) (n : Int) :
    d.rotate_ccw n = (Direction.ofNum ((d.num - n)% 8)).getD .NONE := by
  cases d <;> first | rfl | exact absurd rfl h

theorem Direction.num_range (d : Direction) (h : d ≠ .NONE) : 0 ≤ d.num ∧ d.num < 8 := by
  cases d <;> first | exact ⟨by decide, by decide⟩ | exact absurd rfl h

/-- C9 -- Rotation identities: for every direction `d` and every integer
`n`, `d.rotate_cw(n).rotate_ccw(n) = d`; `d.rotate_cw(8) = d` (a full
turn is the identity); and `NONE` is a fixed point of both rotations. -/
theorem C9_rotation_identities :
    (∀ (d : Direction) (n : Int), (d.rotate_cw n).rotate_ccw n = d) ∧
    (∀ d : Direction, d.rotate_cw 8 = d) ∧
    (∀ n : Int, Direction.NONE.rotate_cw n = .NONE ∧ Direction.NONE.rotate_ccw n = .NONE) := by
  refine ⟨?_, ?_, fun n => ⟨rfl, rfl⟩⟩
  · intro d n
    by_cases hd : d = .NONE
    · subst hd; rfl
    · obtain ⟨h0, h8⟩ := Direction.num_range d hd
      rw [Direction.rotate_cw_ne_none d hd n]
      set m : Int := (d.num + n)% 8 with hm
      have hm0 : 0 ≤ m := Int.emod_nonneg _ (by norm_num)
      have hm8 : m < 8 := Int.emod_lt_of_pos _ (by norm_num)
      obtain ⟨hnum, hne⟩ := Direction.num_ofNum_getD m hm0 hm8
      rw [Direction.rotate_ccw_ne_none _ hne n, hnum]
      have h : (m - n)% 8 = d.num := by omega
      rw [h, Direction.ofNum_num]
      rfl
  · intro d
    by_cases hd : d = .NONE
    · subst hd; rfl
    · obtain ⟨h0, h8⟩ := Direction.num_range d hd
      rw [Direction.rotate_cw_ne_none d hd 8]
      have h : (d.num + 8)% 8 = d.num := by omega
      rw [h, Direction.ofNum_num]
      rfl

/-- C10 -- Direction-to-delta round trip: for every direction `d`
(including `NONE`), `(Point.fromDirection d).abs_dir = d`. -/
theorem C10_delta_round_trip (d : Direction) :
    (Point.fromDirection d).abs_dir = d := by
  cases d <;> rfl

/-- Two-dimensional rectangle, two corner coordinates (src/rect.rs, `Rect`). -/
structure Rect where
  x1 : Int
  x2 : Int
  y1 : Int
  y2 : Int
deriving DecidableEq, Repr

/-- Source `Rect::new` (src/rect.rs): least corner plus width and height. -/
def Rect.new (x y w h : Int) : Rect := ⟨x, x + w, y, y + h⟩

/-- Source `Rect::width` (src/rect.rs). -/
def Rect.width (r : Rect) : Int := r.x2 - r.x1

/-- Source `Rect::height` (src/rect.rs). -/
def Rect.height (r : Rect) : Int := r.y2 - r.y1

/-- The integers of the closed interval `a..=b` in increasing order
(Rust's `a..=b` iterator over `i32`). -/
def intRangeIncl (a b : Int) : List Int :=
  (List.range (b + 1 - a).toNat).map fun (i : Nat) => a + (i : Int)

/-- The integers of the half-open interval `a..b` in increasing order
(Rust's `a..b` iterator over `i32`). -/
def intRange (a b : Int) : List Int :=
  (List.range (b - a).toNat).map fun (i : Nat) => a + (i : Int)

/-- Source `Rect::points_in` (src/rect.rs): nested loop, `x` outer over
`x1..=x2`, `y` inner over `y1..=y2`, pushing `Point::new(x, y)`. -/
def Rect.points_in (r : Rect) : List Point :=
  (intRangeIncl r.x1 r.x2).flatMap fun x =>
    (intRangeIncl r.y1 r.y2).map fun y => Point.new x y

/-- Source `Rect::split_x` (src/rect.rs). -/
def Rect.split_x (r : Rect) (x : Int) : Rect × Rect :=
  (Rect.new r.x1 r.y1 x r.height,
   Rect.new (r.x1 + x + 1) r.y1 (r.width - x - 1) r.height)

/-- Source `Rect::split_y` (src/rect.rs). -/
def Rect.split_y (r : Rect) (y : Int) : Rect × Rect :=
  (Rect.new r.x1 r.y1 r.width y,
   Rect.new r.x1 (r.y1 + y + 1) r.width (r.height - y - 1))

/-- Source `Rect::contains` (src/rect.rs): closed-interval membership test. -/
def Rect.contains (r : Rect) (p : Point) : Bool :=
  decide (r.x1 ≤ p.x ∧ p.x ≤ r.x2 ∧ r.y1 ≤ p.y ∧ p.y ≤ r.y2)

theorem toNat_mul_of_nonneg (a b : Int) (ha : 0 ≤ a) (hb : 0 ≤ b) :
    (a * b).toNat = a.toNat * b.toNat := by
  obtain ⟨m, rfl⟩ := Int.eq_ofNat_of_zero_le ha
  obtain ⟨n, rfl⟩ := Int.eq_ofNat_of_zero_le hb
  rw [← Nat.cast_mul, Int.toNat_natCast, Int.toNat_natCast, Int.toNat_natCast]

theorem mem_intRangeIncl (a b c : Int) : c ∈ intRangeIncl a b ↔ a ≤ c ∧ c ≤ b := by
  simp only [intRangeIncl, List.mem_map, List.mem_range]
  constructor
  · rintro ⟨i, hi, rfl⟩; omega
  · rintro ⟨h1, h2⟩; exact ⟨(c - a).toNat, by omega, by omega⟩

/-- Flattening a nested `range` loop into a single `range` with the
division/remainder decomposition of the flat index. -/
theorem flatMap_range_range {β : Type} (g : Nat → Nat → β) (n m : Nat) :
    (List.range n).flatMap (fun i => (List.range m).map (g i)) =
    (List.range (n * m)).map (fun k => g (k / m) (k % m)) := by
  induction n with
  | zero => simp
  | succ n ih =>
    rw [List.range_succ, List.flatMap_append, ih, Nat.succ_mul, List.range_add,
      List.map_append, List.map_map]
    congr 1
    · simp only [List.flatMap_cons, List.flatMap_nil, List.append_nil]
      apply List.map_congr_left
      intro j hj
      rw [List.mem_range] at hj
      have hm : 0 < m := by omega
      have h1 : (n * m + j) / m = n := by
        rw [Nat.mul_comm n m, Nat.mul_add_div hm, Nat.div_eq_of_lt hj]
        omega
      have h2 : (n * m + j) % m = j := by
        rw [Nat.mul_comm n m, Nat.mul_add_mod, Nat.mod_eq_of_lt hj]
      simp [Function.comp, h1, h2]

/-- Closed form for `points_in`: the `k`-th pushed point has
`x = x1 + k / H` and `y = y1 + k % H`, `H` the inner loop length. -/
theorem points_in_eq (r : Rect) :
    r.points_in = (List.range ((r.x2 + 1 - r.x1).toNat * (r.y2 + 1 - r.y1).toNat)).map
      (fun k => Point.new (r.x1 + (k / (r.y2 + 1 - r.y1).toNat : Nat))
        (r.y1 + (k % (r.y2 + 1 - r.y1).toNat : Nat))) := by
  unfold Rect.points_in intRangeIncl
  rw [List.flatMap_map, ← flatMap_range_range
    (fun i j => Point.new (r.x1 + (i : Int)) (r.y1 + (j : Int)))]
  apply List.flatMap_congr
  intro i _
  rw [List.map_map]
  rfl

/-- C7 -- `Rect::new(x,y,w,h).points_in()` returns exactly
`(w+1)*(h+1)` points when `w, h ≥ 0`: its length is `((w+1)*(h+1)).toNat`,
its members are exactly the integer points of the closed box
`[x, x+w] × [y, y+h]`, and the `k`-th element is
`(x + k / (h+1), y + k % (h+1))`, i.e. the enumeration is column-major
(`x` outer, `y` inner). -/
theorem C7_points_in (x y w h : Int) (hw : 0 ≤ w) (hh : 0 ≤ h) :
    ((Rect.new x y w h).points_in).length = ((w + 1) * (h + 1)).toNat ∧
    (∀ p : Point, p ∈ (Rect.new x y w h).points_in ↔
      (x ≤ p.x ∧ p.x ≤ x + w ∧ y ≤ p.y ∧ p.y ≤ y + h)) ∧
    (∀ k : Nat, k < ((w + 1) * (h + 1)).toNat →
      ((Rect.new x y w h).points_in)[k]? =
        some (Point.new (x + (k / (h + 1).toNat : Nat)) (y + (k % (h + 1).toNat : Nat)))) := by
  have hW : ((Rect.new x y w h).x2 + 1 - (Rect.new x y w h).x1).toNat = (w + 1).toNat := by
    simp only [Rect.new]; omega
  have hH : ((Rect.new x y w h).y2 + 1 - (Rect.new x y w h).y1).toNat = (h + 1).toNat := by
    simp only [Rect.new]; omega
  have hWH : ((w + 1) * (h + 1)).toNat = (w + 1).toNat * (h + 1).toNat :=
    toNat_mul_of_nonneg _ _ (by omega) (by omega)
  refine ⟨?_, ?_, ?_⟩
  · rw [points_in_eq, List.length_map, List.length_range, hW, hH, hWH]
  · intro p
    simp only [Rect.points_in, List.mem_flatMap, List.mem_map, mem_intRangeIncl, Rect.new]
    constructor
    · rintro ⟨a, ⟨ha1, ha2⟩, b, ⟨hb1, hb2⟩, rfl⟩
      simp only [Point.new]
      omega
    · rintro ⟨h1, h2, h3, h4⟩
      exact ⟨p.x, ⟨h1, h2⟩, p.y, ⟨h3, h4⟩, rfl⟩
  · intro k hk
    rw [points_in_eq, List.getElem?_map, hW, hH,
      List.getElem?_range (hWH ▸ hk : k < (w + 1).toNat * (h + 1).toNat)]
    rfl

/-- C7 witness at `x = 0, y = 0, w = 1, h = 1`. -/
theorem C7_points_in_witness :
    ((Rect.new 0 0 1 1).points_in).length = (((1 : Int) + 1) * (1 + 1)).toNat :=
  (C7_points_in 0 0 1 1 (by decide) (by decide)).1

/-- C8 counterexample -- the claim fails at `r = Rect::new(0,0,2,2)`,
`at = 1`, point `(1,0)` (whose `x` is `r.x1 + at`): `Rect::contains` is
a closed-interval test and the first half of `split_x(1)` has
`x2 = r.x1 + at`, so it does contain the point. -/
theorem C8_counterexample :
    ¬ (∀ p : Point, p.x = (Rect.new 0 0 2 2).x1 + 1 →
        ((Rect.new 0 0 2 2).split_x 1).1.contains p = false ∧
        ((Rect.new 0 0 2 2).split_x 1).2.contains p = false) := by
  intro hcl
  have h := (hcl (Point.new 1 0) (by decide)).1
  exact absurd h (by decide)

/-- C8 (amended) -- the split coordinate belongs to neither half under
the half-open reading (`x1 ≤ x < x2`), and `Rect::contains` (closed
intervals) never places it in the second half; it can lie in the first
half only as that half's inclusive `x2` (resp. `y2`) boundary. -/
theorem C8_split_gap (r : Rect) (a : Int) (p q : Point)
    (hp : p.x = r.x1 + a) (hq : q.y = r.y1 + a) :
    (r.split_x a).2.contains p = false ∧
    ¬ ((r.split_x a).1.x1 ≤ p.x ∧ p.x < (r.split_x a).1.x2) ∧
    ¬ ((r.split_x a).2.x1 ≤ p.x ∧ p.x < (r.split_x a).2.x2) ∧
    (r.split_y a).2.contains q = false ∧
    ¬ ((r.split_y a).1.y1 ≤ q.y ∧ q.y < (r.split_y a).1.y2) ∧
    ¬ ((r.split_y a).2.y1 ≤ q.y ∧ q.y < (r.split_y a).2.y2) := by
  simp only [Rect.split_x, Rect.split_y, Rect.contains, Rect.new, Rect.width, Rect.height,
    decide_eq_false_iff_not]
  refine ⟨?_, ?_, ?_, ?_, ?_, ?_⟩ <;> omega

/-- C8 witness at `r = Rect::new(0,0,5,5)`, `at = 2`, points `(2,0)`
and `(0,2)`. -/
theorem C8_split_gap_witness :
    ((Rect.new 0 0 5 5).split_x 2).2.contains (Point.new 2 0) = false :=
  (C8_split_gap (Rect.new 0 0 5 5) 2 (Point.new 2 0) (Point.new 0 2)
    (by decide) (by decide)).1

/-- Row-major index `x as usize + (y as usize) * width`
(`ValueGrid::get_ix` and `Grid::compute_ix`, src/grid.rs).  The
`as usize` cast is modelled by `Int.toNat`; every use in the claims is
at in-bounds (hence non-negative) coordinates, where the two agree. -/
def get_ix (width : Nat) (x y : Int) : Nat := x.toNat + y.toNat * width

/-- Source `index_in_bounds` (src/grid.rs, same default implementation in both
traits): `x >= 0 && y >= 0 && x < width as i32 && y < height as i32`. -/
def index_in_bounds (width height : Nat) (x y : Int) : Bool :=
  decide (0 ≤ x) && decide (0 ≤ y) && decide (x < (width : Int)) && decide (y < (height : Int))

theorem index_in_bounds_iff (width height : Nat) (x y : Int) :
    index_in_bounds width height x y = true ↔
    (0 ≤ x ∧ x < (width : Int) ∧ 0 ≤ y ∧ y < (height : Int)) := by
  simp only [index_in_bounds, Bool.and_eq_true, decide_eq_true_eq]
  tauto

theorem get_ix_lt (width height : Nat) (x y : Int)
    (hin : index_in_bounds width height x y = true) :
    get_ix width x y < width * height := by
  rw [index_in_bounds_iff] at hin
  obtain ⟨hx0, hxw, hy0, hyh⟩ := hin
  have hx : x.toNat < width := by omega
  have hy : y.toNat < height := by omega
  calc x.toNat + y.toNat * width
      < width + y.toNat * width := by omega
    _ = (1 + y.toNat) * width := by ring
    _ ≤ height * width := Nat.mul_le_mul_right width (by omega)
    _ = width * height := Nat.mul_comm height width

theorem get_ix_inj (width height : Nat) (x y x' y' : Int)
    (hin : index_in_bounds width height x y = true)
    (hin' : index_in_bounds width height x' y' = true)
    (heq : get_ix width x y = get_ix width x' y') : x = x' ∧ y = y' := by
  rw [index_in_bounds_iff] at hin hin'
  obtain ⟨hx0, hxw, hy0, hyh⟩ := hin
  obtain ⟨hx0', hxw', hy0', hyh'⟩ := hin'
  have hx : x.toNat < width := by omega
  have hx' : x'.toNat < width := by omega
  unfold get_ix at heq
  have hxx : x.toNat = x'.toNat ∧ y.toNat = y'.toNat := by
    constructor
    · calc x.toNat = (x.toNat + y.toNat * width) % width := by
            rw [Nat.add_mul_mod_self_right, Nat.mod_eq_of_lt hx]
        _ = (x'.toNat + y'.toNat * width) % width := by rw [heq]
        _ = x'.toNat := by rw [Nat.add_mul_mod_self_right, Nat.mod_eq_of_lt hx']
    · have h1 : (x.toNat + y.toNat * width) / width = y.toNat := by
        rw [Nat.add_mul_div_right _ _ (by omega : 0 < width), Nat.div_eq_of_lt hx]
        omega
      have h2 : (x'.toNat + y'.toNat * width) / width = y'.toNat := by
        rw [Nat.add_mul_div_right _ _ (by omega : 0 < width), Nat.div_eq_of_lt hx']
        omega
      calc y.toNat = (x.toNat + y.toNat * width) / width := h1.symm
        _ = (x'.toNat + y'.toNat * width) / width := by rw [heq]
        _ = y'.toNat := h2
  omega

/-- Every index below `width * height` is hit by `get_ix` from an
in-bounds coordinate. -/
theorem get_ix_surj (width height : Nat) (k : Nat) (hk : k < width * height) :
    ∃ x y : Int, index_in_bounds width height x y = true ∧ get_ix width x y = k := by
  have hw : 0 < width := by
    rcases Nat.eq_zero_or_pos width with h | h
    · subst h; simp at hk
    · exact h
  refine ⟨(k % width : Nat), (k / width : Nat), ?_, ?_⟩
  · rw [index_in_bounds_iff]
    refine ⟨by positivity, ?_, by positivity, ?_⟩
    · exact_mod_cast Nat.mod_lt k hw
    · have : k / width < height := Nat.div_lt_of_lt_mul (by omega)
      exact_mod_cast this
  · unfold get_ix
    simp only [Int.toNat_natCast]
    exact Nat.mod_add_div' k width

/-- C3 -- `index_in_bounds(x,y)` is true iff `0 ≤ x < width` and
`0 ≤ y < height`; on the in-bounds domain the row-major map
`get_ix(x,y) = x + y*width` is injective and its image is exactly
`[0, width*height)`. -/
theorem C3_bounds_and_index (width height : Nat) :
    (∀ x y : Int, index_in_bounds width height x y = true ↔
      (0 ≤ x ∧ x < (width : Int) ∧ 0 ≤ y ∧ y < (height : Int))) ∧
    (∀ x y x' y' : Int, index_in_bounds width height x y = true →
      index_in_bounds width height x' y' = true →
      get_ix width x y = get_ix width x' y' → x = x' ∧ y = y') ∧
    (∀ x y : Int, index_in_bounds width height x y = true →
      get_ix width x y < width * height) ∧
    (∀ k : Nat, k < width * height →
      ∃ x y : Int, index_in_bounds width height x y = true ∧ get_ix width x y = k) :=
  ⟨fun x y => index_in_bounds_iff width height x y,
   fun x y x' y' => get_ix_inj width height x y x' y',
   fun x y => get_ix_lt width height x y,
   fun k => get_ix_surj width height k⟩

/-- C3 witness at `width = 3, height = 2`, coordinates `(2,1)`. -/
theorem C3_bounds_and_index_witness :
    ((2 : Int) = 2 ∧ (1 : Int) = 1) ∧ get_ix 3 2 1 < 3 * 2 :=
  ⟨(C3_bounds_and_index 3 2).2.1 2 1 2 1 (by decide) (by decide) rfl,
   (C3_bounds_and_index 3 2).2.2.1 2 1 (by decide)⟩

/-- Generic value grid (src/grid.rs, `SimpleValueGrid<T>`). -/
structure SimpleValueGrid (T : Type) where
  width : Nat
  height : Nat
  values : List T

/-- Source `SimpleValueGrid::new`: backing store of `width * height` copies of
the default. -/
def SimpleValueGrid.new {T : Type} (width height : Nat) (default_value : T) :
    SimpleValueGrid T :=
  ⟨width, height, List.replicate (width * height) default_value⟩

/-- Source `ValueGrid::get_ix` specialised to `SimpleValueGrid`. -/
def SimpleValueGrid.get_ix {T : Type} (g : SimpleValueGrid T) (x y : Int) : Nat :=
  GridUtil.get_ix g.width x y

/-- Source `ValueGrid::index_in_bounds` specialised to `SimpleValueGrid`. -/
def SimpleValueGrid.index_in_bounds {T : Type} (g : SimpleValueGrid T) (x y : Int) : Bool :=
  GridUtil.index_in_bounds g.width g.height x y

/-- Source `SimpleValueGrid::get` (`self.values[self.get_ix(x, y)]`; the
`Vec` index panics out of range, modelled by `Option`). -/
def SimpleValueGrid.get {T : Type} (g : SimpleValueGrid T) (x y : Int) : Option T :=
  g.values[g.get_ix x y]?

/-- Source `SimpleValueGrid::set` (`self.values[ix] = value`).  The `Vec` index
assignment panics out of range while `List.set` leaves the list
unchanged there; the two agree at every in-bounds coordinate of a
well-formed grid, which is where all claims live. -/
def SimpleValueGrid.set {T : Type} (g : SimpleValueGrid T) (x y : Int) (value : T) :
    SimpleValueGrid T :=
  { g with values := g.values.set (g.get_ix x y) value }

/-- Source `ValueGrid::get_point`. -/
def SimpleValueGrid.get_point {T : Type} (g : SimpleValueGrid T) (p : Point) : Option T :=
  g.get p.x p.y

/-- Source `ValueGrid::set_rect` (src/grid.rs): nested loop over the half-open
ranges `rect.x1..rect.x2` (outer) and `rect.y1..rect.y2` (inner). -/
def SimpleValueGrid.set_rect {T : Type} (g : SimpleValueGrid T) (rect : Rect) (value : T) :
    SimpleValueGrid T :=
  (intRange rect.x1 rect.x2).foldl
    (fun g1 x => (intRange rect.y1 rect.y2).foldl (fun g2 y => g2.set x y value) g1) g

/-- Source `ValueGrid::get_rect` (src/grid.rs): the values at
`rect.points_in()` in order. -/
def SimpleValueGrid.get_rect {T : Type} (g : SimpleValueGrid T) (rect : Rect) :
    List (Option T) :=
  rect.points_in.map fun p => g.get_point p

/-- The backing-store length invariant `SimpleValueGrid::new`
establishes. -/
def SimpleValueGrid.wf {T : Type} (g : SimpleValueGrid T) : Prop :=
  g.values.length = g.width * g.height

/-- Generic reference grid (src/grid.rs, `SimpleGrid<T>`). -/
structure SimpleGrid (T : Type) where
  width : Nat
  height : Nat
  values : List T

/-- Source `SimpleGrid::new`. -/
def SimpleGrid.new {T : Type} (width height : Nat) (default_value : T) : SimpleGrid T :=
  ⟨width, height, List.replicate (width * height) default_value⟩

/-- Source `Grid::compute_ix` specialised to `SimpleGrid`. -/
def SimpleGrid.compute_ix {T : Type} (g : SimpleGrid T) (x y : Int) : Nat :=
  GridUtil.get_ix g.width x y

/-- Source `Grid::index_in_bounds` specialised to `SimpleGrid`. -/
def SimpleGrid.index_in_bounds {T : Type} (g : SimpleGrid T) (x y : Int) : Bool :=
  GridUtil.index_in_bounds g.width g.height x y

/-- Source `SimpleGrid::get`: `Some(&self.values[ix])` in bounds, `None`
otherwise.  The inner `Vec` index (infallible on a well-formed grid) is
modelled by the `Option`-valued list lookup. -/
def SimpleGrid.get {T : Type} (g : SimpleGrid T) (x y : Int) : Option T :=
  if g.index_in_bounds x y then g.values[g.compute_ix x y]? else none

/-- Source `SimpleGrid::get_mut`: a mutable reference is modelled by the linear
index it designates (`some ix` in bounds, `none` out of bounds). -/
def SimpleGrid.get_mut {T : Type} (g : SimpleGrid T) (x y : Int) : Option Nat :=
  if g.index_in_bounds x y then some (g.compute_ix x y) else none

/-- Source `Grid::set` default implementation,
`self.get_mut(x, y).map(|x| *x = value)`: writes through the reference
when `get_mut` yields one, does nothing otherwise. -/
def SimpleGrid.set {T : Type} (g : SimpleGrid T) (x y : Int) (value : T) : SimpleGrid T :=
  match g.get_mut x y with
  | some ix => { g with values := g.values.set ix value }
  | none => g

/-- The backing-store length invariant `SimpleGrid::new` establishes. -/
def SimpleGrid.wf {T : Type} (g : SimpleGrid T) : Prop :=
  g.values.length = g.width * g.height

/-- Source `u64::MAX`. -/
def U64_MAX : Nat := 2 ^ 64 - 1

/-- Bit-packed boolean grid (src/grid.rs, `BoolGrid`): 64-bit words as
backing store. -/
structure BoolGrid where
  width : Nat
  height : Nat
  values : List Nat

/-- Source `BoolGrid::new`: `1 + (width * height) / 64` words, each all-ones
or all-zeros according to the default. -/
def BoolGrid.new (width height : Nat) (default_value : Bool) : BoolGrid :=
  ⟨width, height, List.replicate (1 + width * height / 64) (if default_value then U64_MAX else 0)⟩

/-- Source `ValueGrid::get_ix` specialised to `BoolGrid`. -/
def BoolGrid.get_ix (g : BoolGrid) (x y : Int) : Nat :=
  GridUtil.get_ix g.width x y

/-- Source `BoolGrid::get`:
`(self.values[ix / 64] & (1 << (ix % 64))) != 0`, the fallible word
lookup modelled by `Option`. -/
def BoolGrid.get (g : BoolGrid) (x y : Int) : Option Bool :=
  (g.values[g.get_ix x y / 64]?).map fun w =>
    decide (w &&& (1 <<< (g.get_ix x y % 64)) ≠ 0)

/-- Source `BoolGrid::set`: OR with the single-bit mask to set, AND with its
64-bit complement (`!(1 << k)` on `u64`, i.e. XOR against `u64::MAX`)
to clear.  The fallible word access is modelled like in `get`: out of
range the grid is returned unchanged where Rust would panic; all claims
constrain to in-bounds coordinates of well-formed grids, where the word
access succeeds. -/
def BoolGrid.set (g : BoolGrid) (x y : Int) (value : Bool) : BoolGrid :=
  match g.values[g.get_ix x y / 64]? with
  | some w =>
    { g with values := (g.values.set (g.get_ix x y / 64)
        (if value then w ||| (1 <<< (g.get_ix x y % 64))
         else w &&& (U64_MAX ^^^ (1 <<< (g.get_ix x y % 64))))) }
  | none => g

/-- The backing-store length invariant `BoolGrid::new` establishes. -/
def BoolGrid.wf (g : BoolGrid) : Prop :=
  g.values.length = 1 + g.width * g.height / 64

theorem getElem?_set_self_of_lt {α : Type} (l : List α) (i : Nat) (a : α) (h : i < l.length) :
    (l.set i a)[i]? = some a := by
  simp [List.getElem?_set_self, h]

theorem getElem?_replicate_of_lt {α : Type} (n i : Nat) (a : α) (h : i < n) :
    (List.replicate n a)[i]? = some a := by
  simp [List.getElem?_replicate, h]

/-- The mask test `(w & (1 << k)) != 0` reads bit `k` of `w`. -/
theorem bit_test_eq_testBit (w k : Nat) :
    decide (w &&& (1 <<< k) ≠ 0) = w.testBit k := by
  rw [Nat.one_shiftLeft, Nat.and_two_pow]
  cases hb : w.testBit k
  · simp
  · have h2 : (2 : Nat) ^ k ≠ 0 := (Nat.two_pow_pos k).ne'
    simp [h2]

/-- The word index of an in-bounds bit index is inside the
`1 + width*height/64` words that `BoolGrid::new` allocates. -/
theorem word_index_lt (width height : Nat) (x y : Int)
    (hin : index_in_bounds width height x y = true) :
    get_ix width x y / 64 < 1 + width * height / 64 := by
  have h := get_ix_lt width height x y hin
  omega

/-- C6 -- `BoolGrid` in-bounds accesses never index the backing word
vector out of range: for in-bounds `(x,y)` the word index
`(x + y*width)/64` is below the allocated length
`1 + (width*height)/64`, so the word lookup in `get` succeeds. -/
theorem C6_word_in_range (width height : Nat) (d : Bool) (x y : Int)
    (hin : index_in_bounds width height x y = true) :
    get_ix width x y / 64 < 1 + width * height / 64 ∧
    ((BoolGrid.new width height d).get x y).isSome := by
  have hword := word_index_lt width height x y hin
  refine ⟨hword, ?_⟩
  unfold BoolGrid.get
  have hix : (BoolGrid.new width height d).get_ix x y = get_ix width x y := rfl
  have hv : (BoolGrid.new width height d).values =
      List.replicate (1 + width * height / 64) (if d then U64_MAX else 0) := rfl
  rw [hix, hv, getElem?_replicate_of_lt _ _ _ hword]
  rfl

/-- C6 witness at `width = height = 1`, `(x,y) = (0,0)`, default
`false`. -/
theorem C6_word_in_range_witness :
    get_ix 1 0 0 / 64 < 1 + 1 * 1 / 64 ∧ ((BoolGrid.new 1 1 false).get 0 0).isSome :=
  C6_word_in_range 1 1 false 0 0 (by decide)

/-- C2 -- a freshly created `BoolGrid::new(width, height, default)`
reads `default` at every in-bounds coordinate, for both defaults. -/
theorem C2_new_default (width height : Nat) (d : Bool) (x y : Int)
    (hin : index_in_bounds width height x y = true) :
    (BoolGrid.new width height d).get x y = some d := by
  have hword := word_index_lt width height x y hin
  unfold BoolGrid.get
  have hix : (BoolGrid.new width height d).get_ix x y = get_ix width x y := rfl
  have hv : (BoolGrid.new width height d).values =
      List.replicate (1 + width * height / 64) (if d then U64_MAX else 0) := rfl
  rw [hix, hv, getElem?_replicate_of_lt _ _ _ hword]
  have hmap : ∀ (c : Nat) (f : Nat → Bool), Option.map f (some c) = some (f c) :=
    fun c f => rfl
  rw [hmap]
  congr 1
  rw [bit_test_eq_testBit]
  have hk : get_ix width x y % 64 < 64 := Nat.mod_lt _ (by omega)
  cases d
  · simp [Nat.zero_testBit]
  · rw [if_pos rfl]
    show Nat.testBit (2 ^ 64 - 1) (get_ix width x y % 64) = true
    rw [Nat.testBit_two_pow_sub_one]
    simp [hk]

/-- C2 witness at `width = 3, height = 2`, `(x,y) = (1,1)`, default
`true`. -/
theorem C2_new_default_witness :
    (BoolGrid.new 3 2 true).get 1 1 = some true :=
  C2_new_default 3 2 true 1 1 (by decide)

/-- C4 -- `SimpleGrid::get`/`get_mut` yield the empty option exactly
out of bounds and the stored element in bounds, and `Grid::set` at an
out-of-bounds coordinate leaves the grid unchanged. -/
theorem C4_reference_variant {T : Type} (g : SimpleGrid T) (x y : Int) (v : T)
    (hwf : g.wf) :
    (g.get x y = none ↔ g.index_in_bounds x y = false) ∧
    (g.index_in_bounds x y = true →
      g.get x y = g.values[g.compute_ix x y]? ∧ (g.get x y).isSome) ∧
    (g.get_mut x y = none ↔ g.index_in_bounds x y = false) ∧
    (g.index_in_bounds x y = false → g.set x y v = g) := by
  have hsome : g.index_in_bounds x y = true → (g.values[g.compute_ix x y]?).isSome := by
    intro hin
    have hlt : g.compute_ix x y < g.values.length := by
      rw [hwf]; exact get_ix_lt g.width g.height x y hin
    rw [List.getElem?_eq_getElem hlt]
    rfl
  refine ⟨?_, ?_, ?_, ?_⟩
  · constructor
    · intro hnone
      cases hin : g.index_in_bounds x y
      · rfl
      · exfalso
        have h1 := hsome hin
        unfold SimpleGrid.get at hnone
        rw [if_pos hin] at hnone
        rw [hnone] at h1
        simp at h1
    · intro hout
      unfold SimpleGrid.get
      rw [hout]
      simp
  · intro hin
    unfold SimpleGrid.get
    rw [if_pos hin]
    exact ⟨rfl, hsome hin⟩
  · constructor
    · intro hnone
      cases hin : g.index_in_bounds x y
      · rfl
      · exfalso
        unfold SimpleGrid.get_mut at hnone
        rw [if_pos hin] at hnone
        simp at hnone
    · intro hout
      unfold SimpleGrid.get_mut
      rw [hout]
      simp
  · intro hout
    unfold SimpleGrid.set SimpleGrid.get_mut
    rw [hout]
    simp

/-- C4 witness: a 2x1 grid, out-of-bounds set at `(5,0)` is the
identity. -/
theorem C4_reference_variant_witness :
    (SimpleGrid.mk 2 1 [7, 8]).set 5 0 (0 : Nat) = SimpleGrid.mk 2 1 [7, 8] :=
  (C4_reference_variant (SimpleGrid.mk 2 1 [7, 8]) 5 0 0 rfl).2.2.2 (by decide)

/-- Source `ValueGrid::index_in_bounds` specialised to `BoolGrid`. -/
def BoolGrid.index_in_bounds (g : BoolGrid) (x y : Int) : Bool :=
  GridUtil.index_in_bounds g.width g.height x y

theorem testBit_U64_MAX (k : Nat) (hk : k < 64) : U64_MAX.testBit k = true := by
  show Nat.testBit (2 ^ 64 - 1) k = true
  rw [Nat.testBit_two_pow_sub_one]
  simp [hk]

theorem SimpleValueGrid.get_set_self {T : Type} (g : SimpleValueGrid T) (x y : Int) (v : T)
    (hwf : g.wf) (hin : g.index_in_bounds x y = true) :
    (g.set x y v).get x y = some v := by
  have hlt : g.get_ix x y < g.values.length := by
    rw [hwf]; exact get_ix_lt g.width g.height x y hin
  show (g.values.set (g.get_ix x y) v)[g.get_ix x y]? = some v
  exact getElem?_set_self_of_lt _ _ _ hlt

theorem SimpleValueGrid.get_set_other {T : Type} (g : SimpleValueGrid T)
    (x y x' y' : Int) (v : T) (hwf : g.wf)
    (hin : g.index_in_bounds x y = true) (hin' : g.index_in_bounds x' y' = true)
    (hne : ¬(x = x' ∧ y = y')) :
    (g.set x y v).get x' y' = g.get x' y' := by
  have hne_ix : g.get_ix x y ≠ g.get_ix x' y' := fun h =>
    hne (get_ix_inj g.width g.height x y x' y' hin hin' h)
  show (g.values.set (g.get_ix x y) v)[g.get_ix x' y']? = g.values[g.get_ix x' y']?
  exact List.getElem?_set_ne hne_ix

theorem BoolGrid.get_set_self_bits (g : BoolGrid) (x y : Int) (v : Bool)
    (hwf : g.wf) (hin : g.index_in_bounds x y = true) :
    (g.set x y v).get x y = some v := by
  have hword : g.get_ix x y / 64 < g.values.length := by
    rw [hwf]; exact word_index_lt g.width g.height x y hin
  have hk : g.get_ix x y % 64 < 64 := Nat.mod_lt _ (by omega)
  obtain ⟨w, hw⟩ : ∃ w, g.values[g.get_ix x y / 64]? = some w := by
    rw [List.getElem?_eq_getElem hword]; exact ⟨_, rfl⟩
  unfold BoolGrid.set
  rw [hw]
  cases v
  · show (BoolGrid.mk g.width g.height
        (g.values.set (g.get_ix x y / 64)
          (w &&& (U64_MAX ^^^ (1 <<< (g.get_ix x y % 64)))))).get x y = some false
    unfold BoolGrid.get
    rw [show (BoolGrid.mk g.width g.height
        (g.values.set (g.get_ix x y / 64)
          (w &&& (U64_MAX ^^^ (1 <<< (g.get_ix x y % 64)))))).get_ix x y = g.get_ix x y from rfl]
    rw [getElem?_set_self_of_lt _ _ _ (by simpa using hword)]
    simp only [Option.map_some', Option.some.injEq]
    rw [bit_test_eq_testBit, Nat.one_shiftLeft, Nat.testBit_and, Nat.testBit_xor,
      Nat.testBit_two_pow, testBit_U64_MAX _ hk]
    simp
  · show (BoolGrid.mk g.width g.height
        (g.values.set (g.get_ix x y / 64)
          (w ||| (1 <<< (g.get_ix x y % 64))))).get x y = some true
    unfold BoolGrid.get
    rw [show (BoolGrid.mk g.width g.height
        (g.values.set (g.get_ix x y / 64)
          (w ||| (1 <<< (g.get_ix x y % 64))))).get_ix x y = g.get_ix x y from rfl]
    rw [getElem?_set_self_of_lt _ _ _ (by simpa using hword)]
    simp only [Option.map_some', Option.some.injEq]
    rw [bit_test_eq_testBit, Nat.one_shiftLeft, Nat.testBit_or, Nat.testBit_two_pow]
    simp

theorem BoolGrid.get_set_other_bits (g : BoolGrid) (x y x' y' : Int) (v : Bool)
    (hwf : g.wf) (hin : g.index_in_bounds x y = true)
    (hin' : g.index_in_bounds x' y' = true) (hne : ¬(x = x' ∧ y = y')) :
    (g.set x y v).get x' y' = g.get x' y' := by
  have hword : g.get_ix x y / 64 < g.values.length := by
    rw [hwf]; exact word_index_lt g.width g.height x y hin
  have hne_ix : g.get_ix x y ≠ g.get_ix x' y' := fun h =>
    hne (get_ix_inj g.width g.height x y x' y' hin hin' h)
  have hk' : g.get_ix x' y' % 64 < 64 := Nat.mod_lt _ (by omega)
  obtain ⟨w, hw⟩ : ∃ w, g.values[g.get_ix x y / 64]? = some w := by
    rw [List.getElem?_eq_getElem hword]; exact ⟨_, rfl⟩
  unfold BoolGrid.set
  rw [hw]
  show (BoolGrid.mk g.width g.height
      (g.values.set (g.get_ix x y / 64)
        (if v then w ||| (1 <<< (g.get_ix x y % 64))
         else w &&& (U64_MAX ^^^ (1 <<< (g.get_ix x y % 64)))))).get x' y' = g.get x' y'
  unfold BoolGrid.get
  rw [show (BoolGrid.mk g.width g.height
      (g.values.set (g.get_ix x y / 64)
        (if v then w ||| (1 <<< (g.get_ix x y % 64))
         else w &&& (U64_MAX ^^^ (1 <<< (g.get_ix x y % 64)))))).get_ix x' y'
      = g.get_ix x' y' from rfl]
  by_cases hww : g.get_ix x y / 64 = g.get_ix x' y' / 64
  · have hkk : g.get_ix x y % 64 ≠ g.get_ix x' y' % 64 := by omega
    rw [← hww, getElem?_set_self_of_lt _ _ _ hword, hw]
    simp only [Option.map_some', Option.some.injEq]
    rw [bit_test_eq_testBit, bit_test_eq_testBit]
    cases v
    · rw [if_neg (by simp), Nat.one_shiftLeft, Nat.testBit_and, Nat.testBit_xor,
        Nat.testBit_two_pow, testBit_U64_MAX _ hk']
      simp [hkk]
    · rw [if_pos rfl, Nat.one_shiftLeft, Nat.testBit_or, Nat.testBit_two_pow]
      simp [hkk]
  · rw [List.getElem?_set_ne hww]

theorem BoolGrid.set_dims (g : BoolGrid) (x y : Int) (v : Bool) :
    (g.set x y v).width = g.width ∧ (g.set x y v).height = g.height ∧
    (g.set x y v).values.length = g.values.length := by
  unfold BoolGrid.set
  cases h : g.values[g.get_ix x y / 64]?
  · exact ⟨rfl, rfl, rfl⟩
  · exact ⟨rfl, rfl, List.length_set _ _ _⟩

theorem BoolGrid.wf_set_bits (g : BoolGrid) (x y : Int) (v : Bool) (hwf : g.wf) :
    (g.set x y v).wf := by
  obtain ⟨h1, h2, h3⟩ := BoolGrid.set_dims g x y v
  unfold BoolGrid.wf at hwf ⊢
  rw [h1, h2, h3]
  exact hwf

/-- Combined set/get characterization for `BoolGrid` at in-bounds
coordinates. -/
theorem BoolGrid.get_set_bits (g : BoolGrid) (x y x' y' : Int) (v : Bool)
    (hwf : g.wf) (hin : g.index_in_bounds x y = true)
    (hin' : g.index_in_bounds x' y' = true) :
    (g.set x y v).get x' y' = if x = x' ∧ y = y' then some v else g.get x' y' := by
  by_cases h : x = x' ∧ y = y'
  · obtain ⟨rfl, rfl⟩ := h
    rw [if_pos ⟨rfl, rfl⟩]
    exact BoolGrid.get_set_self_bits g x y v hwf hin
  · rw [if_neg h]
    exact BoolGrid.get_set_other_bits g x y x' y' v hwf hin hin' h

/-- After a sequence of in-bounds writes, a `BoolGrid` read returns the
value of the last write at that coordinate, or the original value if
the coordinate was never written. -/
theorem BoolGrid.get_foldl_writes (ws : List (Int × Int × Bool)) (g : BoolGrid) (x y : Int)
    (hwf : g.wf) (hws : ∀ w ∈ ws, g.index_in_bounds w.1 w.2.1 = true)
    (hin : g.index_in_bounds x y = true) :
    (ws.foldl (fun g2 w => g2.set w.1 w.2.1 w.2.2) g).get x y =
      ws.foldl (fun acc w => if w.1 = x ∧ w.2.1 = y then some w.2.2 else acc) (g.get x y) := by
  induction ws generalizing g with
  | nil => rfl
  | cons w0 ws ih =>
    rw [List.foldl_cons, List.foldl_cons]
    have hw0 := hws w0 (List.mem_cons_self w0 ws)
    have hwf1 : (g.set w0.1 w0.2.1 w0.2.2).wf := BoolGrid.wf_set_bits g w0.1 w0.2.1 w0.2.2 hwf
    obtain ⟨h1, h2, _⟩ := BoolGrid.set_dims g w0.1 w0.2.1 w0.2.2
    have hdimeq : ∀ a b : Int,
        (g.set w0.1 w0.2.1 w0.2.2).index_in_bounds a b = g.index_in_bounds a b := by
      intro a b
      show GridUtil.index_in_bounds _ _ a b = GridUtil.index_in_bounds _ _ a b
      rw [h1, h2]
    have hws1 : ∀ w ∈ ws, (g.set w0.1 w0.2.1 w0.2.2).index_in_bounds w.1 w.2.1 = true :=
      fun w hw => by rw [hdimeq]; exact hws w (List.mem_cons_of_mem w0 hw)
    have hin1 : (g.set w0.1 w0.2.1 w0.2.2).index_in_bounds x y = true := by
      rw [hdimeq]; exact hin
    rw [ih (g.set w0.1 w0.2.1 w0.2.2) hwf1 hws1 hin1,
      BoolGrid.get_set_bits g w0.1 w0.2.1 x y w0.2.2 hwf hw0 hin]

/-- C1 -- set/get agreement and non-interference for every container
variant: for `SimpleValueGrid`, `BoolGrid` (bit-packed) and
`SimpleGrid`, on a well-formed grid, after `set(x,y,v)` the read
`get(x,y)` yields `v`, and the read at any other in-bounds coordinate
is unchanged; consequently (final conjunct, for the bit-packed grid)
after an arbitrary sequence of in-bounds `set` calls, `get` reflects
exactly the last `set` at each coordinate, with no bit-level
interference between cells packed into the same word. -/
theorem C1_set_get :
    (∀ (T : Type) (g : SimpleValueGrid T) (x y : Int) (v : T),
      g.wf → g.index_in_bounds x y = true → (g.set x y v).get x y = some v) ∧
    (∀ (T : Type) (g : SimpleValueGrid T) (x y x' y' : Int) (v : T),
      g.wf → g.index_in_bounds x y = true → g.index_in_bounds x' y' = true →
      ¬(x = x' ∧ y = y') → (g.set x y v).get x' y' = g.get x' y') ∧
    (∀ (g : BoolGrid) (x y : Int) (v : Bool),
      g.wf → g.index_in_bounds x y = true → (g.set x y v).get x y = some v) ∧
    (∀ (g : BoolGrid) (x y x' y' : Int) (v : Bool),
      g.wf → g.index_in_bounds x y = true → g.index_in_bounds x' y' = true →
      ¬(x = x' ∧ y = y') → (g.set x y v).get x' y' = g.get x' y') ∧
    (∀ (T : Type) (g : SimpleGrid T) (x y : Int) (v : T),
      g.wf → g.index_in_bounds x y = true → (g.set x y v).get x y = some v) ∧
    (∀ (T : Type) (g : SimpleGrid T) (x y x' y' : Int) (v : T),
      g.wf → g.index_in_bounds x y = true → g.index_in_bounds x' y' = true →
      ¬(x = x' ∧ y = y') → (g.set x y v).get x' y' = g.get x' y') ∧
    (∀ (ws : List (Int × Int × Bool)) (g : BoolGrid) (x y : Int),
      g.wf → (∀ w ∈ ws, g.index_in_bounds w.1 w.2.1 = true) →
      g.index_in_bounds x y = true →
      (ws.foldl (fun g2 w => g2.set w.1 w.2.1 w.2.2) g).get x y =
        ws.foldl (fun acc w => if w.1 = x ∧ w.2.1 = y then some w.2.2 else acc)
          (g.get x y)) := by
  refine ⟨?_, ?_, ?_, ?_, ?_, ?_, ?_⟩
  · intro T g x y v hwf hin
    exact SimpleValueGrid.get_set_self g x y v hwf hin
  · intro T g x y x' y' v hwf hin hin' hne
    exact SimpleValueGrid.get_set_other g x y x' y' v hwf hin hin' hne
  · intro g x y v hwf hin
    exact BoolGrid.get_set_self_bits g x y v hwf hin
  · intro g x y x' y' v hwf hin hin' hne
    exact BoolGrid.get_set_other_bits g x y x' y' v hwf hin hin' hne
  · intro T g x y v hwf hin
    have hin2 : GridUtil.index_in_bounds g.width g.height x y = true := hin
    have hlt : get_ix g.width x y < g.values.length := by
      rw [hwf]; exact get_ix_lt g.width g.height x y hin
    unfold SimpleGrid.set SimpleGrid.get_mut
    rw [if_pos hin]
    show (if GridUtil.index_in_bounds g.width g.height x y = true
        then (g.values.set (get_ix g.width x y) v)[get_ix g.width x y]? else none) = some v
    rw [if_pos hin2]
    exact getElem?_set_self_of_lt _ _ _ hlt
  · intro T g x y x' y' v hwf hin hin' hne
    have hin2' : GridUtil.index_in_bounds g.width g.height x' y' = true := hin'
    have hne_ix : get_ix g.width x y ≠ get_ix g.width x' y' := fun h =>
      hne (get_ix_inj g.width g.height x y x' y' hin hin' h)
    have hr : g.get x' y' = g.values[g.compute_ix x' y']? := by
      unfold SimpleGrid.get
      rw [if_pos hin']
    unfold SimpleGrid.set SimpleGrid.get_mut
    rw [if_pos hin, hr]
    show (if GridUtil.index_in_bounds g.width g.height x' y' = true
        then (g.values.set (get_ix g.width x y) v)[get_ix g.width x' y']? else none)
      = g.values[get_ix g.width x' y']?
    rw [if_pos hin2']
    exact List.getElem?_set_ne hne_ix
  · intro ws g x y hwf hws hin
    exact BoolGrid.get_foldl_writes ws g x y hwf hws hin

/-- C1 witness: a 2x2 value grid, a 3x2 bit-packed grid and a 2x2
reference grid at concrete coordinates, plus a two-write sequence on
the bit-packed grid. -/
theorem C1_set_get_witness :
    ((SimpleValueGrid.mk 2 2 [0, 0, 0, 0]).set 1 1 (5 : Nat)).get 1 1 = some 5 ∧
    ((BoolGrid.mk 3 2 [0]).set 1 1 true).get 1 1 = some true ∧
    ((BoolGrid.mk 3 2 [0]).set 1 1 true).get 0 0 = (BoolGrid.mk 3 2 [0]).get 0 0 ∧
    ((SimpleGrid.mk 2 2 [0, 0, 0, 0]).set 0 1 (7 : Nat)).get 0 1 = some 7 ∧
    ([((1 : Int), (1 : Int), true), (1, 1, false)].foldl
        (fun g2 w => g2.set w.1 w.2.1 w.2.2) (BoolGrid.mk 3 2 [0])).get 1 1 =
      ([((1 : Int), (1 : Int), true), (1, 1, false)].foldl
        (fun acc w => if w.1 = 1 ∧ w.2.1 = 1 then some w.2.2 else acc)
        ((BoolGrid.mk 3 2 [0]).get 1 1)) :=
  ⟨C1_set_get.1 Nat (SimpleValueGrid.mk 2 2 [0, 0, 0, 0]) 1 1 5 rfl (by decide),
   C1_set_get.2.2.1 (BoolGrid.mk 3 2 [0]) 1 1 true rfl (by decide),
   C1_set_get.2.2.2.1 (BoolGrid.mk 3 2 [0]) 1 1 0 0 true rfl (by decide) (by decide)
     (by decide),
   C1_set_get.2.2.2.2.1 Nat (SimpleGrid.mk 2 2 [0, 0, 0, 0]) 0 1 7 rfl (by decide),
   C1_set_get.2.2.2.2.2.2 [((1 : Int), (1 : Int), true), (1, 1, false)]
     (BoolGrid.mk 3 2 [0]) 1 1 rfl (by decide) (by decide)⟩

theorem mem_intRange (a b c : Int) : c ∈ intRange a b ↔ a ≤ c ∧ c < b := by
  simp only [intRange, List.mem_map, List.mem_range]
  constructor
  · rintro ⟨i, hi, rfl⟩; omega
  · rintro ⟨h1, h2⟩; exact ⟨(c - a).toNat, by omega, by omega⟩

theorem mem_points_in (r : Rect) (p : Point) :
    p ∈ r.points_in ↔ (r.x1 ≤ p.x ∧ p.x ≤ r.x2 ∧ r.y1 ≤ p.y ∧ p.y ≤ r.y2) := by
  simp only [Rect.points_in, List.mem_flatMap, List.mem_map, mem_intRangeIncl]
  constructor
  · rintro ⟨a, ⟨ha1, ha2⟩, b, ⟨hb1, hb2⟩, rfl⟩
    simp only [Point.new]
    omega
  · rintro ⟨h1, h2, h3, h4⟩
    exact ⟨p.x, ⟨h1, h2⟩, p.y, ⟨h3, h4⟩, rfl⟩

theorem SimpleValueGrid.wf_set {T : Type} (g : SimpleValueGrid T) (x y : Int) (v : T)
    (hwf : g.wf) : (g.set x y v).wf := by
  show (g.values.set (g.get_ix x y) v).length = g.width * g.height
  rw [List.length_set]
  exact hwf

/-- Combined set/get characterization for in-bounds coordinates. -/
theorem SimpleValueGrid.get_set {T : Type} (g : SimpleValueGrid T) (x y x' y' : Int) (v : T)
    (hwf : g.wf) (hin : g.index_in_bounds x y = true) (hin' : g.index_in_bounds x' y' = true) :
    (g.set x y v).get x' y' = if x = x' ∧ y = y' then some v else g.get x' y' := by
  by_cases h : x = x' ∧ y = y'
  · obtain ⟨rfl, rfl⟩ := h
    rw [if_pos ⟨rfl, rfl⟩]
    exact SimpleValueGrid.get_set_self g x y v hwf hin
  · rw [if_neg h]
    exact SimpleValueGrid.get_set_other g x y x' y' v hwf hin hin' h

/-- Reading after the inner column loop of `set_rect`: the cell changed
iff it is among the written column cells. -/
theorem foldl_set_col_get {T : Type} (ys : List Int) (g : SimpleValueGrid T) (x0 : Int)
    (v : T) (x' y' : Int) (hwf : g.wf)
    (hx0 : 0 ≤ x0 ∧ x0 < (g.width : Int))
    (hys : ∀ y ∈ ys, 0 ≤ y ∧ y < (g.height : Int))
    (hin' : g.index_in_bounds x' y' = true) :
    (ys.foldl (fun g2 y => g2.set x0 y v) g).get x' y' =
      if x0 = x' ∧ y' ∈ ys then some v else g.get x' y' := by
  induction ys generalizing g with
  | nil => simp
  | cons y0 ys ih =>
    rw [List.foldl_cons]
    have hy0 := hys y0 (List.mem_cons_self y0 ys)
    have hin0 : g.index_in_bounds x0 y0 = true := by
      show GridUtil.index_in_bounds g.width g.height x0 y0 = true
      rw [index_in_bounds_iff]
      exact ⟨hx0.1, hx0.2, hy0.1, hy0.2⟩
    have hwf1 : (g.set x0 y0 v).wf := SimpleValueGrid.wf_set g x0 y0 v hwf
    rw [ih (g.set x0 y0 v) hwf1 hx0 (fun y hy => hys y (List.mem_cons_of_mem y0 hy)) hin']
    by_cases hmem : x0 = x' ∧ y' ∈ ys
    · rw [if_pos hmem, if_pos ⟨hmem.1, List.mem_cons_of_mem y0 hmem.2⟩]
    · rw [if_neg hmem, SimpleValueGrid.get_set g x0 y0 x' y' v hwf hin0 hin']
      by_cases heq : x0 = x' ∧ y0 = y'
      · rw [if_pos heq, if_pos ⟨heq.1, by rw [← heq.2]; exact List.mem_cons_self y0 ys⟩]
      · rw [if_neg heq, if_neg ?_]
        rintro ⟨hx, hmem'⟩
        rcases List.mem_cons.mp hmem' with h | h
        · exact heq ⟨hx, h.symm⟩
        · exact hmem ⟨hx, h⟩

/-- The column loop preserves the grid dimensions and store length. -/
theorem foldl_set_col_dims {T : Type} (ys : List Int) (g : SimpleValueGrid T) (x0 : Int)
    (v : T) :
    (ys.foldl (fun g2 y => g2.set x0 y v) g).width = g.width ∧
    (ys.foldl (fun g2 y => g2.set x0 y v) g).height = g.height ∧
    (ys.foldl (fun g2 y => g2.set x0 y v) g).values.length = g.values.length := by
  induction ys generalizing g with
  | nil => exact ⟨rfl, rfl, rfl⟩
  | cons y0 ys ih =>
    rw [List.foldl_cons]
    obtain ⟨h1, h2, h3⟩ := ih (g.set x0 y0 v)
    refine ⟨h1, h2, h3.trans ?_⟩
    show (g.values.set (g.get_ix x0 y0) v).length = g.values.length
    exact List.length_set g.values _ v

/-- Reading after the full nested loop of `set_rect`. -/
theorem foldl_set_rect_get {T : Type} (xs : List Int) (ys : List Int) (g : SimpleValueGrid T)
    (v : T) (x' y' : Int) (hwf : g.wf)
    (hxs : ∀ x ∈ xs, 0 ≤ x ∧ x < (g.width : Int))
    (hys : ∀ y ∈ ys, 0 ≤ y ∧ y < (g.height : Int))
    (hin' : g.index_in_bounds x' y' = true) :
    (xs.foldl (fun g1 x => ys.foldl (fun g2 y => g2.set x y v) g1) g).get x' y' =
      if x' ∈ xs ∧ y' ∈ ys then some v else g.get x' y' := by
  induction xs generalizing g with
  | nil => simp
  | cons x0 xs ih =>
    rw [List.foldl_cons]
    have hx0 := hxs x0 (List.mem_cons_self x0 xs)
    obtain ⟨hd1, hd2, hd3⟩ := foldl_set_col_dims ys g x0 v
    have hwf1 : (ys.foldl (fun g2 y => g2.set x0 y v) g).wf := by
      show _ = _
      rw [hd1, hd2, hd3]
      exact hwf
    have hxs1 : ∀ x ∈ xs,
        0 ≤ x ∧ x < (((ys.foldl (fun g2 y => g2.set x0 y v) g).width : Nat) : Int) := by
      rw [hd1]
      exact fun x hx => hxs x (List.mem_cons_of_mem x0 hx)
    have hys1 : ∀ y ∈ ys,
        0 ≤ y ∧ y < (((ys.foldl (fun g2 y => g2.set x0 y v) g).height : Nat) : Int) := by
      rw [hd2]
      exact hys
    have hin1 : (ys.foldl (fun g2 y => g2.set x0 y v) g).index_in_bounds x' y' = true := by
      show GridUtil.index_in_bounds _ _ x' y' = true
      rw [hd1, hd2]
      exact hin'
    rw [ih (ys.foldl (fun g2 y => g2.set x0 y v) g) hwf1 hxs1 hys1 hin1]
    rw [foldl_set_col_get ys g x0 v x' y' hwf hx0 hys hin']
    by_cases h1 : x' ∈ xs ∧ y' ∈ ys
    · rw [if_pos h1, if_pos ⟨List.mem_cons_of_mem x0 h1.1, h1.2⟩]
    · rw [if_neg h1]
      by_cases h2 : x0 = x' ∧ y' ∈ ys
      · rw [if_pos h2, if_pos ⟨by rw [← h2.1]; exact List.mem_cons_self x0 xs, h2.2⟩]
      · rw [if_neg h2, if_neg ?_]
        rintro ⟨hm, hy⟩
        rcases List.mem_cons.mp hm with h | h
        · exact h2 ⟨h.symm, hy⟩
        · exact h1 ⟨h, hy⟩

/-- What `set_rect` actually writes: the half-open box
`[x1,x2) × [y1,y2)`. -/
theorem SimpleValueGrid.get_set_rect {T : Type} (g : SimpleValueGrid T) (r : Rect) (v : T)
    (x' y' : Int) (hwf : g.wf)
    (hrx : 0 ≤ r.x1 ∧ r.x2 ≤ (g.width : Int))
    (hry : 0 ≤ r.y1 ∧ r.y2 ≤ (g.height : Int))
    (hin' : g.index_in_bounds x' y' = true) :
    (g.set_rect r v).get x' y' =
      if (r.x1 ≤ x' ∧ x' < r.x2) ∧ (r.y1 ≤ y' ∧ y' < r.y2) then some v
      else g.get x' y' := by
  unfold SimpleValueGrid.set_rect
  rw [foldl_set_rect_get (intRange r.x1 r.x2) (intRange r.y1 r.y2) g v x' y' hwf
    (fun x hx => by rw [mem_intRange] at hx; omega)
    (fun y hy => by rw [mem_intRange] at hy; omega) hin']
  by_cases h : (r.x1 ≤ x' ∧ x' < r.x2) ∧ (r.y1 ≤ y' ∧ y' < r.y2)
  · rw [if_pos ⟨(mem_intRange _ _ _).mpr h.1, (mem_intRange _ _ _).mpr h.2⟩, if_pos h]
  · rw [if_neg (fun hc => h ⟨(mem_intRange _ _ _).mp hc.1, (mem_intRange _ _ _).mp hc.2⟩),
      if_neg h]

/-- C5 counterexample -- the claim fails on `SimpleValueGrid`: with a
3x3 grid of `0`, `v = 1` and `r = Rect::new(0,0,1,1)` (in bounds,
nonnegative dimensions), `set_rect` writes only the half-open box
(here the single cell `(0,0)`) while `get_rect` reads the closed box
(four cells), so not every element of the read equals `v`. -/
theorem C5_counterexample :
    ¬ (∀ t ∈ ((SimpleValueGrid.new 3 3 (0 : Nat)).set_rect (Rect.new 0 0 1 1) 1).get_rect
        (Rect.new 0 0 1 1), t = some 1) := by decide

/-- C5 (amended) -- value-variant rectangle fill covers only the
half-open part of the region the read enumerates: after
`set_rect(r, v)` on an in-bounds rectangle with nonnegative width and
height, `get_rect(r)` (the values at `r.points_in()`, in column-major
order) holds `v` exactly at the points with `x < x2` and `y < y2`,
while the points on the inclusive right/top edges (`x = x2` or
`y = y2`) still read their previous values. -/
theorem C5_set_rect_vs_get_rect {T : Type} (g : SimpleValueGrid T) (r : Rect) (v : T)
    (hwf : g.wf)
    (hx1 : 0 ≤ r.x1) (hx2 : r.x2 < (g.width : Int))
    (hy1 : 0 ≤ r.y1) (hy2 : r.y2 < (g.height : Int)) :
    ((g.set_rect r v).get_rect r = r.points_in.map fun p =>
      if (r.x1 ≤ p.x ∧ p.x < r.x2) ∧ (r.y1 ≤ p.y ∧ p.y < r.y2) then some v
      else g.get_point p) ∧
    (∀ p ∈ r.points_in,
      ((p.x < r.x2 ∧ p.y < r.y2) → (g.set_rect r v).get_point p = some v) ∧
      ((p.x = r.x2 ∨ p.y = r.y2) → (g.set_rect r v).get_point p = g.get_point p)) := by
  have key : ∀ p ∈ r.points_in, (g.set_rect r v).get_point p =
      if (r.x1 ≤ p.x ∧ p.x < r.x2) ∧ (r.y1 ≤ p.y ∧ p.y < r.y2) then some v
      else g.get_point p := by
    intro p hp
    have hbox := (mem_points_in r p).mp hp
    have hin' : g.index_in_bounds p.x p.y = true := by
      show GridUtil.index_in_bounds g.width g.height p.x p.y = true
      rw [index_in_bounds_iff]
      omega
    show (g.set_rect r v).get p.x p.y = _
    rw [SimpleValueGrid.get_set_rect g r v p.x p.y hwf ⟨hx1, by omega⟩ ⟨hy1, by omega⟩ hin']
    rfl
  refine ⟨List.map_congr_left key, ?_⟩
  intro p hp
  have hbox := (mem_points_in r p).mp hp
  constructor
  · intro hlt
    rw [key p hp, if_pos ⟨⟨hbox.1, hlt.1⟩, hbox.2.2.1, hlt.2⟩]
  · intro hedge
    rw [key p hp, if_neg ?_]
    rintro ⟨⟨_, hlt1⟩, _, hlt2⟩
    rcases hedge with he | he <;> omega

/-- C5 witness at a 3x3 grid of `0`, `v = 1`, `r = Rect::new(0,0,1,1)`,
point `(0,0)` (interior of the half-open box). -/
theorem C5_set_rect_vs_get_rect_witness :
    ((SimpleValueGrid.new 3 3 (0 : Nat)).set_rect (Rect.new 0 0 1 1) 1).get_point
      (Point.new 0 0) = some 1 :=
  ((C5_set_rect_vs_get_rect (SimpleValueGrid.new 3 3 (0 : Nat)) (Rect.new 0 0 1 1) 1
      rfl (by decide) (by decide) (by decide) (by decide)).2
    (Point.new 0 0) (by decide)).1 (by decide)

end GridUtil
